import Mathlib

/-!
Verification of `pandas/core/arrays/numeric.py` (masked nullable numeric arrays).

The development shallowly embeds the file's operations:

* `NumericArray`   — the masked numeric array (`data` buffer, boolean `mask`, element kind);
* `arith_method`   — `NumericArray._arith_method` (lines 175-245 of the source);
* `astype`         — `NumericArray.astype` (lines 127-173);
* `from_arrow`     — `NumericDtype.__from_arrow__` (lines 52-98);
* `neg_method`     — `NumericArray.__neg__` (lines 249-250).

Numeric element values are modelled as integers: no claim observes a fractional or
special floating value of the data buffer; the floating-versus-integer distinction that
claims do observe is carried by the `Kind` tag.  NumPy elementwise operations on 1-D
arrays broadcast a length-1 operand against any length and reject any other length
mismatch; `bcast2` reproduces exactly that rule.  Helpers of the masked base class that
the source file calls but that are defined elsewhere (`_maybe_mask_result`, `to_numpy`,
`astype_nansafe`, `_concat_same_type`, `pyarrow_array_to_numpy_and_mask`) are modelled
from the specification and marked as such in their doc comments.
-/

namespace NumericSpec

/-- Equality of `Except` values is decidable when it is on both sides. -/
instance {ε α : Type} [DecidableEq ε] [DecidableEq α] : DecidableEq (Except ε α) :=
  fun x y =>
    match x, y with
    | .ok a, .ok b =>
      if h : a = b then isTrue (h ▸ rfl) else isFalse fun hh => h (Except.ok.inj hh)
    | .error e, .error e' =>
      if h : e = e' then isTrue (h ▸ rfl)
      else isFalse fun hh => h (Except.error.inj hh)
    | .ok _, .error _ => isFalse fun hh => Except.noConfusion hh
    | .error _, .ok _ => isFalse fun hh => Except.noConfusion hh

/-- Element kind of a dtype, mirroring `dtype.kind`: signed integer `i`, unsigned
integer `u`, floating `f`.  Bit widths are not tracked: no claim observes them. -/
inductive Kind
  | i
  | u
  | f
  deriving DecidableEq

/-- The Masked Numeric Array: a numeric data buffer and a boolean mask of the same
length (`mask = true` means the slot is missing), tagged with its element kind. -/
structure NumericArray where
  data : List Int
  mask : List Bool
  kind : Kind
  deriving DecidableEq

/-- The operand kinds `_arith_method` distinguishes (lines 182-199 of the source):
another masked array, a native list-like, a plain scalar, or the missing-value
singleton `libmissing.NA`.  The duration branch (lines 194-195) is not modelled:
no claim exercises it.  Scalars are integers, which pass the `is_float or is_integer`
check of line 198; list-like kinds here are always numeric, passing line 191. -/
inductive Operand
  | marr (data : List Int) (mask : List Bool) (kind : Kind)
  | nlist (data : List Int) (kind : Kind)
  | scalar (x : Int)
  | na
  deriving DecidableEq

/-- The binary operators dispatched through `_arith_method`.  The reflected
variants other than `rtruediv` and `rpow` behave exactly like their mirrors for
every property below and are omitted. -/
inductive Op
  | add
  | sub
  | mul
  | truediv
  | rtruediv
  | floordiv
  | mod
  | pow
  | rpow
  | divmod
  deriving DecidableEq

/-- The errors `_arith_method` can raise. -/
inductive ArithError
  | lengthMismatch
    -- `ValueError("Lengths must match")`, line 190
  | broadcastError
    -- numpy `ValueError` from combining 1-D arrays whose lengths neither match
    -- nor broadcast (e.g. `self._mask | omask` at line 206)
  | unpackMismatch
    -- `div, mod = result` at line 239 with `result` the 1-D NA placeholder array:
    -- Python tuple unpacking of an ndarray of length other than two raises
  | scalarAssembly
    -- same line with a length-two placeholder: unpacking yields two scalar
    -- elements, which the downstream array construction rejects
  deriving DecidableEq

/-- Result of `_arith_method`: one array, or the `divmod` pair. -/
inductive ArithResult
  | one (a : NumericArray)
  | two (q r : NumericArray)
  deriving DecidableEq

/-- `"truediv" in op_name` (line 228): the operator names containing the substring
`truediv` are `truediv` and `rtruediv`. -/
def truedivName : Op → Bool
  | .truediv => true
  | .rtruediv => true
  | _ => false

/-- NumPy 1-D elementwise combination: equal lengths combine slotwise, a length-1
operand broadcasts against the other length, anything else is a shape error. -/
def bcast2 {α β γ : Type} (f : α → β → γ) (xs : List α) (ys : List β) :
    Option (List γ) :=
  if xs.length = ys.length then some (List.zipWith f xs ys)
  else
    match xs, ys with
    | [x], ys => some (ys.map fun y => f x y)
    | xs, [y] => some (xs.map fun x => f x y)
    | _, _ => none

/-- One slot of `np.where(cond, False, mask)`. -/
def whereF (c m : Bool) : Bool := if c then false else m

/-- `np.where(cond, False, mask)` for an array condition (lines 210, 213, 220, 224). -/
def npWhere (cond : List Bool) (mask : List Bool) : Option (List Bool) :=
  bcast2 whereF cond mask

/-- Slot of the condition `(self._data == 1) & ~self._mask` (line 210) and of
`(other == 1) & ~omask` (line 220). -/
def isOneValid (x : Int) (m : Bool) : Bool := decide (x = 1) && !m

/-- Slot of the condition `(other == 0) & ~omask` (line 213) and of
`(self._data == 0) & ~self._mask` (line 224). -/
def isZeroValid (x : Int) (m : Bool) : Bool := decide (x = 0) && !m

/-- Mask combination, lines 201-206: without an operand mask the result mask is a
copy of `self._mask`, forced all-missing when the operand is the missing-value
singleton (`mask |= True`); with an operand mask it is the elementwise OR. -/
def combinedMask (self : NumericArray) (other : Operand) : Option (List Bool) :=
  match other with
  | .marr _ om _ => bcast2 Bool.or self.mask om
  | .na => some (self.mask.map fun _ => true)
  | _ => some self.mask

/-- The `pow` identity overrides, lines 208-215: unmask where the base is an
unmasked one; then unmask where the exponent is an unmasked zero (elementwise for
an array operand, all slots for the scalar zero, skipped for the NA singleton). -/
def powOverride (self : NumericArray) (other : Operand) (mask : List Bool) :
    Option (List Bool) :=
  match npWhere (List.zipWith isOneValid self.data self.mask) mask with
  | none => none
  | some mask1 =>
    match other with
    | .marr od om _ =>
      match bcast2 isZeroValid od om with
      | none => none
      | some cond => npWhere cond mask1
    | .nlist od _ => npWhere (od.map fun y => decide (y = 0)) mask1
    | .scalar x => some (if x = 0 then mask1.map fun _ => false else mask1)
    | .na => some mask1

/-- The `rpow` identity overrides, lines 217-224: unmask where the operand base is
an unmasked one (skipped for the NA singleton); then unmask where the exponent
`self._data` is an unmasked zero. -/
def rpowOverride (self : NumericArray) (other : Operand) (mask : List Bool) :
    Option (List Bool) :=
  let base :=
    match other with
    | .marr od om _ =>
      match bcast2 isOneValid od om with
      | none => none
      | some cond => npWhere cond mask
    | .nlist od _ => npWhere (od.map fun y => decide (y = 1)) mask
    | .scalar x => some (if x = 1 then mask.map fun _ => false else mask)
    | .na => some mask
  match base with
  | none => none
  | some mask1 => npWhere (List.zipWith isZeroValid self.data self.mask) mask1

/-- Operator-name dispatch of the identity overrides, lines 208-224. -/
def overrideMask (op : Op) (self : NumericArray) (other : Operand)
    (mask : List Bool) : Option (List Bool) :=
  if op = .pow then powOverride self other mask
  else if op = .rpow then rpowOverride self other mask
  else some mask

/-- Scalar semantics of the elementwise operators, under numpy conventions for the
slots numpy silently fills under `errstate(all="ignore")`: integer division and
modulo by zero produce zero.  True division is tracked only up to the integer part
and the floating `Kind` tag, and powers with negative integer exponents as zero:
no claim observes those values. -/
def applyOp : Op → Int → Int → Int
  | .add, a, b => a + b
  | .sub, a, b => a - b
  | .mul, a, b => a * b
  | .truediv, a, b => if b = 0 then 0 else a.fdiv b
  | .rtruediv, a, b => if a = 0 then 0 else b.fdiv a
  | .floordiv, a, b => if b = 0 then 0 else a.fdiv b
  | .mod, a, b => if b = 0 then 0 else a.fmod b
  | .pow, a, b => if b < 0 then 0 else a ^ b.toNat
  | .rpow, a, b => if a < 0 then 0 else b ^ a.toNat
  | .divmod, a, b => if b = 0 then 0 else a.fdiv b

/-- The element kind of the operand, as consulted by numpy type promotion. -/
def operandKind : Operand → Kind
  | .marr _ _ k => k
  | .nlist _ k => k
  | .scalar _ => .i
  | .na => .i

/-- Result kind of the elementwise computation `op(self._data, other)` (line 235)
under numpy promotion, tracked only up to floating-ness: true division always
produces floating data, any floating operand produces floating data, and integer
kinds otherwise keep `self`'s kind (width and signedness promotion untracked). -/
def promoteKind (op : Op) (k1 k2 : Kind) : Kind :=
  if truedivName op then .f
  else if k1 = .f ∨ k2 = .f then .f
  else k1

/-- Raw result of the data computation: an array buffer, or the tuple numpy's
`divmod` returns. -/
inductive Raw
  | arr (data : List Int) (kind : Kind)
  | tup (q r : List Int) (kind : Kind)
  deriving DecidableEq

/-- Elementwise application of `op(self._data, other)` for a non-NA operand. -/
def elemwise (op : Op) (self : NumericArray) (other : Operand) :
    Option (List Int) :=
  match other with
  | .marr od _ _ => bcast2 (applyOp op) self.data od
  | .nlist od _ => bcast2 (applyOp op) self.data od
  | .scalar x => some (self.data.map fun a => applyOp op a x)
  | .na => none

/-- Data computation, lines 226-235: for the NA singleton the computation is
skipped and the buffer seeded with `np.ones_like(self._data)`, promoted to a
floating buffer when the operator name contains `truediv` and `self` is not
already floating (lines 227-232); otherwise the elementwise computation runs,
`divmod` producing its quotient-and-remainder tuple. -/
def computeRaw (self : NumericArray) (other : Operand) (op : Op) : Option Raw :=
  match other with
  | .na =>
    let k := if truedivName op = true ∧ self.kind ≠ .f then Kind.f else self.kind
    some (.arr (List.replicate self.data.length 1) k)
  | other =>
    let k := promoteKind op self.kind (operandKind other)
    if op = .divmod then
      match elemwise .floordiv self other, elemwise .mod self other with
      | some q, some r => some (.tup q r k)
      | _, _ => none
    else
      match elemwise op self other with
      | some d => some (.arr d k)
      | none => none

/-- Modelled from the spec: Result Assembly (`BaseMaskedArray._maybe_mask_result`,
called at lines 241-245 but defined outside these sources) wraps the raw data
buffer and the combined mask into the typed output array; the output follows the
raw buffer's kind, widened to floating under a true-division operator name. -/
def maybe_mask_result (data : List Int) (kind : Kind) (mask : List Bool)
    (op : Op) : NumericArray :=
  ⟨data, mask, if truedivName op then .f else kind⟩

/-- Lines 237-245: the `divmod` tuple is unpacked and each component assembled
under the operator names `floordiv` and `mod` with the same combined mask; any
other operator assembles its single buffer.  When `op` is `divmod` but the raw
result is the 1-D NA placeholder array, `div, mod = result` is a Python unpacking
of an ndarray: it raises unless the array has exactly two elements, and with two
elements it yields scalars that the downstream array construction rejects. -/
def finalize (op : Op) (raw : Raw) (mask : List Bool) :
    Except ArithError ArithResult :=
  match raw with
  | .tup q r k =>
    .ok (.two (maybe_mask_result q k mask .floordiv)
              (maybe_mask_result r k mask .mod))
  | .arr d k =>
    if op = .divmod then
      if d.length = 2 then .error .scalarAssembly else .error .unpackMismatch
    else .ok (.one (maybe_mask_result d k mask op))

/-- Mask combination, overrides, data computation and assembly (lines 201-245). -/
def arithCore (self : NumericArray) (other : Operand) (op : Op) :
    Except ArithError ArithResult :=
  match combinedMask self other with
  | none => .error .broadcastError
  | some mask0 =>
    match overrideMask op self other mask0 with
    | none => .error .broadcastError
    | some mask =>
      match computeRaw self other op with
      | none => .error .broadcastError
      | some raw => finalize op raw mask

/-- `NumericArray._arith_method` (lines 175-245).  The list-like branch checks
`len(self) != len(other)` and raises `ValueError("Lengths must match")`
(lines 189-190) before any computation; the other operand kinds go straight to
the mask/data pipeline. -/
def arith_method (self : NumericArray) (other : Operand) (op : Op) :
    Except ArithError ArithResult :=
  match other with
  | .nlist od k =>
    if self.data.length = od.length then arithCore self (.nlist od k) op
    else .error .lengthMismatch
  | other => arithCore self other op

/-- `NumericArray.__neg__` (lines 249-250): negate the data buffer elementwise and
copy the mask. -/
def neg_method (a : NumericArray) : NumericArray :=
  ⟨a.data.map fun x => -x, a.mask, a.kind⟩

/-- Native (non-extension) target dtypes of `astype`, tracked up to the families
the fill-value policy of lines 160-166 distinguishes: floating, datetime64, and
the rest (integer, unsigned, object). -/
inductive NpDtype
  | flt
  | dt64
  | intg
  | uintg
  | obj
  deriving DecidableEq

/-- Values of a materialized native buffer: ordinary numbers, the floating NaN
fill, or the datetime not-a-time sentinel. -/
inductive NpScalar
  | ofInt (x : Int)
  | nan
  | natS
  deriving DecidableEq

/-- Errors of the cast path. -/
inductive CastError
  | noFillError
    -- materializing with missing values but no fill value available
  | floatSpecial
    -- a special floating value does not map to the target type
  deriving DecidableEq

/-- Fill-value selection of `astype`, lines 157-166: a floating target fills
missing slots with NaN, a datetime64 target with NaT, and any other target has no
fill value (`lib.no_default`). -/
def na_value_for (dtype : NpDtype) : Option NpScalar :=
  if dtype = .flt then some .nan
  else if dtype = .dt64 then some .natS
  else none

/-- Modelled from the spec: `BaseMaskedArray.to_numpy` (called at line 168 but
defined outside these sources) materializes a native buffer with every missing
slot replaced by the fill value, and errors with an unsafe-cast error when no
fill value exists while at least one slot is missing. -/
def to_numpy (a : NumericArray) (na_value : Option NpScalar) :
    Except CastError (List NpScalar) :=
  match na_value with
  | some v =>
    .ok (List.zipWith (fun x m => if m then v else NpScalar.ofInt x) a.data a.mask)
  | none =>
    if a.mask.any id then .error .noFillError
    else .ok (a.data.map NpScalar.ofInt)

/-- Modelled from the spec: `astype_nansafe` (called at line 172 but defined
outside these sources) applies a numeric-safety pass to buffers coming from a
floating source: a floating target keeps the buffer unchanged, while special
floating values reaching a non-floating target are rejected. -/
def astype_nansafe (data : List NpScalar) (dtype : NpDtype) :
    Except CastError (List NpScalar) :=
  if dtype = .flt then .ok data
  else if data.any (fun v => match v with | .ofInt _ => false | _ => true) then
    .error .floatSpecial
  else .ok data

/-- `NumericArray.astype` (lines 127-173), on the native-dtype branch: the
extension-dtype branch of line 154 delegates to the masked base class and is out
of this file's scope.  Select the fill value from the target family, materialize
through `to_numpy`, and run the numeric-safety pass when the source kind is
floating (lines 169-173). -/
def astype (a : NumericArray) (dtype : NpDtype) :
    Except CastError (List NpScalar) :=
  match to_numpy a (na_value_for dtype) with
  | .error e => .error e
  | .ok data => if a.kind = .f then astype_nansafe data dtype else .ok data

/-- The dtype descriptor, `NumericDtype`: only its element kind is observable
here. -/
structure NumericDtype where
  kind : Kind
  deriving DecidableEq

/-- One chunk of the columnar interchange format: a value buffer and the arrow
validity buffer (`true` means the slot is present). -/
structure ArrowChunk where
  values : List Int
  valid : List Bool
  deriving DecidableEq

/-- Modelled from the spec: `pyarrow_array_to_numpy_and_mask` (called at line 86
but defined outside these sources) extracts a chunk's data buffer and validity
mask (validity convention: `true` = valid). -/
def pyarrow_array_to_numpy_and_mask (c : ArrowChunk) : List Int × List Bool :=
  (c.values, c.valid)

/-- Modelled from the spec: `BaseMaskedArray._concat_same_type` (called at line 98
but defined outside these sources) concatenates the chunk arrays into one array,
preserving the original chunk order. -/
def concat_same_type (xs : List NumericArray) (k : Kind) : NumericArray :=
  ⟨(xs.map NumericArray.data).flatten, (xs.map NumericArray.mask).flatten, k⟩

/-- `NumericDtype.__from_arrow__` (lines 52-98), after type normalization: build
one masked array per chunk, inverting the arrow validity buffer into this
engine's missing convention (`~mask`, line 87); zero chunks give the empty array
of the dtype, one chunk is returned directly, several chunks are concatenated in
order (lines 90-98).  The pyarrow type-normalization preamble of lines 64-76 is
not modelled: the claims take type-matching inputs, for which it is the
identity.  A plain (non-chunked) arrow array is the singleton chunk list
(lines 78-82). -/
def from_arrow (dt : NumericDtype) (chunks : List ArrowChunk) : NumericArray :=
  let results := chunks.map fun c =>
    let dm := pyarrow_array_to_numpy_and_mask c
    NumericArray.mk dm.1 (dm.2.map not) dt.kind
  match results with
  | [] => ⟨[], [], dt.kind⟩
  | [r] => r
  | rs => concat_same_type rs dt.kind

/-- The result mask of a one-array outcome, observed at slot `i`. -/
def resultMaskAt (r : Except ArithError ArithResult) (i : Nat) : Option Bool :=
  match r with
  | .ok (.one a) => a.mask.get? i
  | _ => none

/-- Length compatibility of an operand with an array of `n` slots (the setting of
the equal-length claims; scalars and the NA singleton fit any length). -/
def operandFits : Operand → Nat → Prop
  | .marr od om _, n => od.length = n ∧ om.length = n
  | .nlist od _, n => od.length = n
  | .scalar _, _ => True
  | .na, _ => True

/-- The operand is a non-missing zero at slot `i` (the exponent-zero side
conditions of claims C2 and C3). -/
def operandZeroAt : Operand → Nat → Prop
  | .marr od om _, i => od.get? i = some 0 ∧ om.get? i = some false
  | .nlist od _, i => od.get? i = some 0
  | .scalar x, _ => x = 0
  | .na, _ => False

/-- The operand is a non-missing one at slot `i`. -/
def operandOneAt : Operand → Nat → Prop
  | .marr od om _, i => od.get? i = some 1 ∧ om.get? i = some false
  | .nlist od _, i => od.get? i = some 1
  | .scalar x, _ => x = 1
  | .na, _ => False

/-! ## Helper lemmas -/

theorem bcast2_eq_zipWith {α β γ : Type} (f : α → β → γ) {xs : List α}
    {ys : List β} (h : xs.length = ys.length) :
    bcast2 f xs ys = some (List.zipWith f xs ys) := by
  simp [bcast2, h]

theorem npWhere_eq_zipWith {cond mask : List Bool} (h : cond.length = mask.length) :
    npWhere cond mask = some (List.zipWith whereF cond mask) :=
  bcast2_eq_zipWith whereF h

theorem bcast2_none {α β γ : Type} (f : α → β → γ) {xs : List α} {ys : List β}
    (h : xs.length ≠ ys.length) (hx : xs.length ≠ 1) (hy : ys.length ≠ 1) :
    bcast2 f xs ys = none := by
  unfold bcast2
  rw [if_neg h]
  match xs, ys with
  | [], [] => exact absurd rfl h
  | [], [_] => exact absurd rfl hy
  | [], _ :: _ :: _ => rfl
  | [_], _ => exact absurd rfl hx
  | _ :: _ :: _, [] => rfl
  | _ :: _ :: _, [_] => exact absurd rfl hy
  | _ :: _ :: _, _ :: _ :: _ => rfl

theorem get?_zipWith_some {α β γ : Type} (f : α → β → γ) {xs : List α}
    {ys : List β} {i : Nat} {x : α} {y : β}
    (hx : xs.get? i = some x) (hy : ys.get? i = some y) :
    (List.zipWith f xs ys).get? i = some (f x y) := by
  rw [List.get?_eq_getElem?] at hx hy ⊢
  simp [List.getElem?_zipWith', hx, hy]

theorem lt_length_of_get? {α : Type} {l : List α} {i : Nat} {x : α}
    (h : l.get? i = some x) : i < l.length := by
  by_contra hh
  push_neg at hh
  rw [List.get?_eq_none.2 hh] at h
  cases h

theorem get?_some_of_lt {α : Type} {l : List α} {i : Nat} (h : i < l.length) :
    ∃ x, l.get? i = some x :=
  ⟨l.get ⟨i, h⟩, List.get?_eq_get h⟩

theorem get?_map_some {α β : Type} (f : α → β) {l : List α} {i : Nat} {x : α}
    (h : l.get? i = some x) : (l.map f).get? i = some (f x) := by
  rw [List.get?_eq_getElem?] at h ⊢
  simp [List.getElem?_map, h]

theorem get?_replicate_some {α : Type} (a : α) {n i : Nat} (h : i < n) :
    (List.replicate n a).get? i = some a := by
  rw [List.get?_eq_getElem?]
  simp [List.getElem?_replicate, h]

theorem whereF_of_false (c : Bool) : whereF c false = false := by
  cases c <;> rfl

theorem whereF_of_truecond (m : Bool) : whereF true m = false := rfl

/-! ## Closed forms of `arith_method` on the length-compatible inputs -/

theorem arith_na_closed (A : NumericArray) (op : Op)
    (hp : op ≠ .pow) (hr : op ≠ .rpow) (hd : op ≠ .divmod) :
    arith_method A .na op =
      .ok (.one ⟨List.replicate A.data.length 1,
                 List.replicate A.mask.length true,
                 if truedivName op then Kind.f else A.kind⟩) := by
  by_cases htd : truedivName op = true
  · simp [arith_method, arithCore, combinedMask, overrideMask, computeRaw, finalize,
      maybe_mask_result, hp, hr, hd, htd]
  · simp [arith_method, arithCore, combinedMask, overrideMask, computeRaw, finalize,
      maybe_mask_result, hp, hr, hd, htd]

theorem arith_na_pow_closed (A : NumericArray)
    (hwf : A.data.length = A.mask.length) :
    arith_method A .na .pow =
      .ok (.one ⟨List.replicate A.data.length 1,
        List.zipWith whereF (List.zipWith isOneValid A.data A.mask)
          (List.replicate A.mask.length true),
        A.kind⟩) := by
  have hlen : (List.zipWith isOneValid A.data A.mask).length
      = (List.replicate A.mask.length true).length := by
    simp [hwf]
  simp [arith_method, arithCore, combinedMask, overrideMask, powOverride,
    npWhere_eq_zipWith hlen, computeRaw, finalize, maybe_mask_result, truedivName]

theorem arith_na_rpow_closed (A : NumericArray)
    (hwf : A.data.length = A.mask.length) :
    arith_method A .na .rpow =
      .ok (.one ⟨List.replicate A.data.length 1,
        List.zipWith whereF (List.zipWith isZeroValid A.data A.mask)
          (List.replicate A.mask.length true),
        A.kind⟩) := by
  have hlen : (List.zipWith isZeroValid A.data A.mask).length
      = (List.replicate A.mask.length true).length := by
    simp [hwf]
  simp [arith_method, arithCore, combinedMask, overrideMask, rpowOverride,
    npWhere_eq_zipWith hlen, computeRaw, finalize, maybe_mask_result, truedivName]

theorem arith_plain_marr_closed (A : NumericArray) (od : List Int) (om : List Bool)
    (k : Kind) (op : Op) (hp : op ≠ .pow) (hr : op ≠ .rpow) (hd : op ≠ .divmod)
    (h1 : od.length = A.data.length) (h2 : om.length = A.mask.length) :
    arith_method A (.marr od om k) op =
      .ok (.one ⟨List.zipWith (applyOp op) A.data od,
        List.zipWith Bool.or A.mask om,
        promoteKind op A.kind k⟩) := by
  have e1 : combinedMask A (.marr od om k) = some (List.zipWith Bool.or A.mask om) :=
    bcast2_eq_zipWith Bool.or h2.symm
  have e2 : bcast2 (applyOp op) A.data od = some (List.zipWith (applyOp op) A.data od) :=
    bcast2_eq_zipWith _ h1.symm
  by_cases htd : truedivName op = true <;>
    simp [arith_method, arithCore, e1, overrideMask, hp, hr, computeRaw, elemwise, e2,
      finalize, hd, maybe_mask_result, promoteKind, operandKind, htd]

theorem arith_divmod_marr_closed (A : NumericArray) (od : List Int) (om : List Bool)
    (k : Kind) (h1 : od.length = A.data.length) (h2 : om.length = A.mask.length) :
    arith_method A (.marr od om k) .divmod =
      .ok (.two
        ⟨List.zipWith (applyOp .floordiv) A.data od,
         List.zipWith Bool.or A.mask om, promoteKind .divmod A.kind k⟩
        ⟨List.zipWith (applyOp .mod) A.data od,
         List.zipWith Bool.or A.mask om, promoteKind .divmod A.kind k⟩) := by
  have e1 : combinedMask A (.marr od om k) = some (List.zipWith Bool.or A.mask om) :=
    bcast2_eq_zipWith Bool.or h2.symm
  have e2 : bcast2 (applyOp .floordiv) A.data od
      = some (List.zipWith (applyOp .floordiv) A.data od) :=
    bcast2_eq_zipWith _ h1.symm
  have e3 : bcast2 (applyOp .mod) A.data od
      = some (List.zipWith (applyOp .mod) A.data od) :=
    bcast2_eq_zipWith _ h1.symm
  simp [arith_method, arithCore, e1, overrideMask, computeRaw, elemwise, e2, e3,
    finalize, maybe_mask_result, truedivName, promoteKind, operandKind]

theorem arith_pow_marr_closed (A : NumericArray) (od : List Int) (om : List Bool)
    (k : Kind) (hwf : A.data.length = A.mask.length)
    (h1 : od.length = A.data.length) (h2 : om.length = A.data.length) :
    arith_method A (.marr od om k) .pow =
      .ok (.one ⟨List.zipWith (applyOp .pow) A.data od,
        List.zipWith whereF (List.zipWith isZeroValid od om)
          (List.zipWith whereF (List.zipWith isOneValid A.data A.mask)
            (List.zipWith Bool.or A.mask om)),
        promoteKind .pow A.kind k⟩) := by
  have e1 : combinedMask A (.marr od om k) = some (List.zipWith Bool.or A.mask om) :=
    bcast2_eq_zipWith Bool.or (by omega)
  have e2 : npWhere (List.zipWith isOneValid A.data A.mask)
      (List.zipWith Bool.or A.mask om)
      = some (List.zipWith whereF (List.zipWith isOneValid A.data A.mask)
          (List.zipWith Bool.or A.mask om)) :=
    npWhere_eq_zipWith (by simp; omega)
  have e3 : bcast2 isZeroValid od om = some (List.zipWith isZeroValid od om) :=
    bcast2_eq_zipWith _ (by omega)
  have e4 : npWhere (List.zipWith isZeroValid od om)
      (List.zipWith whereF (List.zipWith isOneValid A.data A.mask)
        (List.zipWith Bool.or A.mask om))
      = some (List.zipWith whereF (List.zipWith isZeroValid od om)
          (List.zipWith whereF (List.zipWith isOneValid A.data A.mask)
            (List.zipWith Bool.or A.mask om))) :=
    npWhere_eq_zipWith (by simp; omega)
  have e5 : bcast2 (applyOp .pow) A.data od
      = some (List.zipWith (applyOp .pow) A.data od) :=
    bcast2_eq_zipWith _ (by omega)
  simp [arith_method, arithCore, e1, overrideMask, powOverride, e2, e3, e4,
    computeRaw, elemwise, e5, finalize, maybe_mask_result, truedivName, promoteKind, operandKind]

theorem arith_pow_nlist_closed (A : NumericArray) (od : List Int) (k : Kind)
    (hwf : A.data.length = A.mask.length) (h1 : od.length = A.data.length) :
    arith_method A (.nlist od k) .pow =
      .ok (.one ⟨List.zipWith (applyOp .pow) A.data od,
        List.zipWith whereF (od.map fun y => decide (y = 0))
          (List.zipWith whereF (List.zipWith isOneValid A.data A.mask) A.mask),
        promoteKind .pow A.kind k⟩) := by
  have e2 : npWhere (List.zipWith isOneValid A.data A.mask) A.mask
      = some (List.zipWith whereF (List.zipWith isOneValid A.data A.mask) A.mask) :=
    npWhere_eq_zipWith (by simp; omega)
  have e3 : npWhere (od.map fun y => decide (y = 0))
      (List.zipWith whereF (List.zipWith isOneValid A.data A.mask) A.mask)
      = some (List.zipWith whereF (od.map fun y => decide (y = 0))
          (List.zipWith whereF (List.zipWith isOneValid A.data A.mask) A.mask)) :=
    npWhere_eq_zipWith (by simp; omega)
  have e5 : bcast2 (applyOp .pow) A.data od
      = some (List.zipWith (applyOp .pow) A.data od) :=
    bcast2_eq_zipWith _ (by omega)
  simp [arith_method, arithCore, combinedMask, h1, overrideMask, powOverride, e2, e3,
    computeRaw, elemwise, e5, finalize, maybe_mask_result, truedivName, promoteKind, operandKind]

theorem arith_pow_scalar_zero_closed (A : NumericArray)
    (hwf : A.data.length = A.mask.length) :
    arith_method A (.scalar 0) .pow =
      .ok (.one ⟨A.data.map (fun a => applyOp .pow a 0),
        List.replicate A.mask.length false,
        promoteKind .pow A.kind .i⟩) := by
  have e2 : npWhere (List.zipWith isOneValid A.data A.mask) A.mask
      = some (List.zipWith whereF (List.zipWith isOneValid A.data A.mask) A.mask) :=
    npWhere_eq_zipWith (by simp; omega)
  simp [arith_method, arithCore, combinedMask, overrideMask, powOverride, e2,
    computeRaw, elemwise, finalize, maybe_mask_result, truedivName, promoteKind, operandKind, hwf]

theorem arith_pow_scalar_closed (A : NumericArray) (x : Int) (hx : x ≠ 0)
    (hwf : A.data.length = A.mask.length) :
    arith_method A (.scalar x) .pow =
      .ok (.one ⟨A.data.map (fun a => applyOp .pow a x),
        List.zipWith whereF (List.zipWith isOneValid A.data A.mask) A.mask,
        promoteKind .pow A.kind .i⟩) := by
  have e2 : npWhere (List.zipWith isOneValid A.data A.mask) A.mask
      = some (List.zipWith whereF (List.zipWith isOneValid A.data A.mask) A.mask) :=
    npWhere_eq_zipWith (by simp; omega)
  simp [arith_method, arithCore, combinedMask, overrideMask, powOverride, e2,
    computeRaw, elemwise, finalize, maybe_mask_result, truedivName, promoteKind, operandKind, hx]

theorem arith_rpow_marr_closed (A : NumericArray) (od : List Int) (om : List Bool)
    (k : Kind) (hwf : A.data.length = A.mask.length)
    (h1 : od.length = A.data.length) (h2 : om.length = A.data.length) :
    arith_method A (.marr od om k) .rpow =
      .ok (.one ⟨List.zipWith (applyOp .rpow) A.data od,
        List.zipWith whereF (List.zipWith isZeroValid A.data A.mask)
          (List.zipWith whereF (List.zipWith isOneValid od om)
            (List.zipWith Bool.or A.mask om)),
        promoteKind .rpow A.kind k⟩) := by
  have e1 : combinedMask A (.marr od om k) = some (List.zipWith Bool.or A.mask om) :=
    bcast2_eq_zipWith Bool.or (by omega)
  have e2 : bcast2 isOneValid od om = some (List.zipWith isOneValid od om) :=
    bcast2_eq_zipWith _ (by omega)
  have e3 : npWhere (List.zipWith isOneValid od om) (List.zipWith Bool.or A.mask om)
      = some (List.zipWith whereF (List.zipWith isOneValid od om)
          (List.zipWith Bool.or A.mask om)) :=
    npWhere_eq_zipWith (by simp; omega)
  have e4 : npWhere (List.zipWith isZeroValid A.data A.mask)
      (List.zipWith whereF (List.zipWith isOneValid od om)
        (List.zipWith Bool.or A.mask om))
      = some (List.zipWith whereF (List.zipWith isZeroValid A.data A.mask)
          (List.zipWith whereF (List.zipWith isOneValid od om)
            (List.zipWith Bool.or A.mask om))) :=
    npWhere_eq_zipWith (by simp; omega)
  have e5 : bcast2 (applyOp .rpow) A.data od
      = some (List.zipWith (applyOp .rpow) A.data od) :=
    bcast2_eq_zipWith _ (by omega)
  simp [arith_method, arithCore, e1, overrideMask, rpowOverride, e2, e3, e4,
    computeRaw, elemwise, e5, finalize, maybe_mask_result, truedivName, promoteKind, operandKind]

theorem arith_rpow_nlist_closed (A : NumericArray) (od : List Int) (k : Kind)
    (hwf : A.data.length = A.mask.length) (h1 : od.length = A.data.length) :
    arith_method A (.nlist od k) .rpow =
      .ok (.one ⟨List.zipWith (applyOp .rpow) A.data od,
        List.zipWith whereF (List.zipWith isZeroValid A.data A.mask)
          (List.zipWith whereF (od.map fun y => decide (y = 1)) A.mask),
        promoteKind .rpow A.kind k⟩) := by
  have e3 : npWhere (od.map fun y => decide (y = 1)) A.mask
      = some (List.zipWith whereF (od.map fun y => decide (y = 1)) A.mask) :=
    npWhere_eq_zipWith (by simp; omega)
  have e4 : npWhere (List.zipWith isZeroValid A.data A.mask)
      (List.zipWith whereF (od.map fun y => decide (y = 1)) A.mask)
      = some (List.zipWith whereF (List.zipWith isZeroValid A.data A.mask)
          (List.zipWith whereF (od.map fun y => decide (y = 1)) A.mask)) :=
    npWhere_eq_zipWith (by simp; omega)
  have e5 : bcast2 (applyOp .rpow) A.data od
      = some (List.zipWith (applyOp .rpow) A.data od) :=
    bcast2_eq_zipWith _ (by omega)
  simp [arith_method, arithCore, combinedMask, h1, overrideMask, rpowOverride, e3, e4,
    computeRaw, elemwise, e5, finalize, maybe_mask_result, truedivName, promoteKind, operandKind]

theorem arith_rpow_scalar_one_closed (A : NumericArray)
    (hwf : A.data.length = A.mask.length) :
    arith_method A (.scalar 1) .rpow =
      .ok (.one ⟨A.data.map (fun a => applyOp .rpow a 1),
        List.zipWith whereF (List.zipWith isZeroValid A.data A.mask)
          (List.replicate A.mask.length false),
        promoteKind .rpow A.kind .i⟩) := by
  have e4 : npWhere (List.zipWith isZeroValid A.data A.mask)
      (List.replicate A.mask.length false)
      = some (List.zipWith whereF (List.zipWith isZeroValid A.data A.mask)
          (List.replicate A.mask.length false)) :=
    npWhere_eq_zipWith (by simp; omega)
  simp [arith_method, arithCore, combinedMask, overrideMask, rpowOverride, e4,
    computeRaw, elemwise, finalize, maybe_mask_result, truedivName, promoteKind, operandKind, hwf]

theorem arith_rpow_scalar_closed (A : NumericArray) (x : Int) (hx : x ≠ 1)
    (hwf : A.data.length = A.mask.length) :
    arith_method A (.scalar x) .rpow =
      .ok (.one ⟨A.data.map (fun a => applyOp .rpow a x),
        List.zipWith whereF (List.zipWith isZeroValid A.data A.mask) A.mask,
        promoteKind .rpow A.kind .i⟩) := by
  have e4 : npWhere (List.zipWith isZeroValid A.data A.mask) A.mask
      = some (List.zipWith whereF (List.zipWith isZeroValid A.data A.mask) A.mask) :=
    npWhere_eq_zipWith (by simp; omega)
  simp [arith_method, arithCore, combinedMask, overrideMask, rpowOverride, e4,
    computeRaw, elemwise, finalize, maybe_mask_result, truedivName, promoteKind, operandKind, hx]

/-! ## Claims -/

/-- Claim C1, counterexample.  The claim asserts that for every binary operator an
NA operand forces an all-missing result mask.  It fails on the code: for `pow` the
identity override of line 210 runs after the `mask |= True` of line 204 and
unmasks every slot holding an unmasked one, so `[1] ** NA` has the non-missing
result mask `[false]` (and exposes the placeholder value `1`); and for `divmod`
the NA placeholder is a flat array, so the tuple unpacking of line 239 fails
instead of producing any result. -/
theorem C1_counterexample :
    arith_method ⟨[1], [false], .i⟩ .na .pow = .ok (.one ⟨[1], [false], .i⟩)
  ∧ arith_method ⟨[1], [false], .i⟩ .na .divmod = .error .unpackMismatch := by
  constructor <;> decide

/-- Claim C1 (amended): for every binary operator other than `pow`, `rpow` and
`divmod`, when the other operand is the missing-value singleton the result mask is
all-missing regardless of the array's data and mask, so the all-ones placeholder
buffer seeded into the result is never observed by the caller (`pow` and `rpow`
unmask their identity slots — claim C10 — and `divmod` raises on unpacking the
placeholder). -/
theorem C1_amended_thm (A : NumericArray) (op : Op)
    (hp : op ≠ .pow) (hr : op ≠ .rpow) (hd : op ≠ .divmod) :
    arith_method A .na op =
      .ok (.one ⟨List.replicate A.data.length 1,
                 List.replicate A.mask.length true,
                 if truedivName op then Kind.f else A.kind⟩) :=
  arith_na_closed A op hp hr hd

/-- Witness for C1: the amended claim applied at a concrete array and operator. -/
theorem C1_witness :
    arith_method ⟨[3], [false], .i⟩ .na .sub = .ok (.one ⟨[1], [true], .i⟩) := by
  have h := C1_amended_thm ⟨[3], [false], .i⟩ .sub
    (by decide) (by decide) (by decide)
  simpa using h

/-- Claim C4: with the missing-value singleton as operand, the placeholder buffer
seeded at lines 227-232 is all ones with a floating kind exactly when the operator
name contains `truediv` (so the resulting array reports a floating dtype even for
an integer-kind array), and for every other operator the placeholder — and hence
the resulting array — keeps `self`'s dtype. -/
theorem C4_thm (A : NumericArray) (op : Op)
    (hwf : A.data.length = A.mask.length) :
    computeRaw A .na op = some (.arr (List.replicate A.data.length 1)
        (if truedivName op then Kind.f else A.kind))
  ∧ (truedivName op = true →
      ∃ out, arith_method A .na op = .ok (.one out) ∧ out.kind = Kind.f)
  ∧ (truedivName op = false → op ≠ .divmod →
      ∃ out, arith_method A .na op = .ok (.one out) ∧ out.kind = A.kind) := by
  refine ⟨?_, ?_, ?_⟩
  · by_cases htd : truedivName op = true
    · by_cases hk : A.kind = .f <;> simp [computeRaw, htd, hk]
    · simp [computeRaw, htd]
  · intro htd
    cases op <;> simp_all [truedivName] <;>
      exact ⟨_, arith_na_closed A _ (by decide) (by decide) (by decide), by
        simp [truedivName]⟩
  · intro htd hd
    by_cases hp : op = .pow
    · subst hp
      exact ⟨_, arith_na_pow_closed A hwf, rfl⟩
    · by_cases hr : op = .rpow
      · subst hr
        exact ⟨_, arith_na_rpow_closed A hwf, rfl⟩
      · exact ⟨_, arith_na_closed A op hp hr hd, by simp [htd]⟩

/-- Witness for C4 at a concrete array and both operator classes. -/
theorem C4_witness :
    ([2, 5] : List Int).length = ([false, true] : List Bool).length
  ∧ (∃ out, arith_method ⟨[2, 5], [false, true], .i⟩ .na .truediv
        = .ok (.one out) ∧ out.kind = Kind.f)
  ∧ (∃ out, arith_method ⟨[2, 5], [false, true], .i⟩ .na .sub
        = .ok (.one out) ∧ out.kind = Kind.i) :=
  ⟨rfl, (C4_thm ⟨[2, 5], [false, true], .i⟩ .truediv rfl).2.1 rfl,
    (C4_thm ⟨[2, 5], [false, true], .i⟩ .sub rfl).2.2 rfl (by decide)⟩

/-- Claim C5, counterexample.  The claim asserts that mismatched element counts
fail for every binary operator whenever the other operand is another masked
array.  It fails on the code: the masked-array branch (line 183) performs no
explicit length check, and the numpy combinations at lines 206 and 235 broadcast
a one-element operand, so a length-3 array combined with a length-1 masked array
succeeds and returns a length-3 result instead of raising. -/
theorem C5_counterexample :
    arith_method ⟨[0, 0, 0], [false, false, false], .i⟩
        (.marr [7] [false] .i) .add
      = .ok (.one ⟨[7, 7, 7], [false, false, false], .i⟩) := by
  decide

/-- Claim C5 (amended): for every binary operator, a list-like operand of any
mismatched length fails with the `Lengths must match` error of line 190, and a
masked-array operand fails with numpy's broadcast shape error whenever the two
element counts differ and neither is one (a one-element operand instead
broadcasts, as in the counterexample). -/
theorem C5_amended_thm (A : NumericArray) (op : Op) :
    (∀ od k, od.length ≠ A.data.length →
      arith_method A (.nlist od k) op = .error .lengthMismatch)
  ∧ (∀ od om k, om.length ≠ A.mask.length → om.length ≠ 1 → A.mask.length ≠ 1 →
      arith_method A (.marr od om k) op = .error .broadcastError) := by
  constructor
  · intro od k h
    have hq : ¬ (A.data.length = od.length) := fun hh => h hh.symm
    simp [arith_method, hq]
  · intro od om k h h1 hs
    have e1 : combinedMask A (.marr od om k) = none :=
      bcast2_none Bool.or (fun hh => h hh.symm) hs h1
    simp [arith_method, arithCore, e1]

/-- Witness for C5 at concrete mismatched lengths (3 against 4). -/
theorem C5_witness :
    arith_method ⟨[1, 2, 3], [false, false, false], .i⟩
        (.nlist [1, 2, 3, 4] .i) .add = .error .lengthMismatch
  ∧ arith_method ⟨[1, 2, 3], [false, false, false], .i⟩
        (.marr [1, 2, 3, 4] [false, false, false, false] .i) .add
      = .error .broadcastError :=
  ⟨(C5_amended_thm ⟨[1, 2, 3], [false, false, false], .i⟩ .add).1
      [1, 2, 3, 4] .i (by decide),
   (C5_amended_thm ⟨[1, 2, 3], [false, false, false], .i⟩ .add).2
      [1, 2, 3, 4] [false, false, false, false] .i
      (by decide) (by decide) (by decide)⟩

/-- Claim C9: unary negation returns a new array whose data is the elementwise
negation of the input's data and whose mask is an equal-valued copy of the
input's mask, with length and dtype unchanged. -/
theorem C9_thm (a : NumericArray) :
    (neg_method a).data = a.data.map (fun x => -x)
  ∧ (neg_method a).mask = a.mask
  ∧ (neg_method a).data.length = a.data.length
  ∧ (neg_method a).kind = a.kind :=
  ⟨rfl, rfl, by simp [neg_method], rfl⟩

/-- Claim C8: reconstruction from the columnar interchange format concatenates
the chunk buffers in their original order with the validity buffers inverted to
the missing convention; zero chunks give the empty array of the dtype's kind
(length 0, no error), one chunk is returned directly, and the concrete pair of
chunks `[1,2]` (all valid) and `[missing,4]` yields the 4-length array
`[1,2,missing,4]` in that exact order. -/
theorem C8_thm (dt : NumericDtype) (chunks : List ArrowChunk) :
    (from_arrow dt chunks).data = (chunks.map ArrowChunk.values).flatten
  ∧ (from_arrow dt chunks).mask = (chunks.map fun c => c.valid.map not).flatten
  ∧ (from_arrow dt chunks).kind = dt.kind
  ∧ from_arrow dt [] = ⟨[], [], dt.kind⟩
  ∧ (∀ c : ArrowChunk, from_arrow dt [c] = ⟨c.values, c.valid.map not, dt.kind⟩)
  ∧ from_arrow ⟨Kind.i⟩ [⟨[1, 2], [true, true]⟩, ⟨[0, 4], [false, true]⟩]
      = ⟨[1, 2, 0, 4], [false, false, true, false], Kind.i⟩ := by
  refine ⟨?_, ?_, ?_, rfl, fun c => rfl, by decide⟩ <;>
    rcases chunks with _ | ⟨c1, _ | ⟨c2, cs⟩⟩ <;>
      simp [from_arrow, concat_same_type, pyarrow_array_to_numpy_and_mask,
        Function.comp_def]

/-- Claim C10: with the missing-value singleton as operand, every slot the `pow`
(resp. `rpow`) identity override leaves not-missing — an unmasked one in
`self.data` for `pow`, an unmasked zero for `rpow` — exposes the all-ones
placeholder buffer to the caller, and the observed value is exactly `1`, the
mathematically correct value of `1 ** x` (resp. `x ** 0`). -/
theorem C10_thm (A : NumericArray) (i : Nat)
    (hwf : A.data.length = A.mask.length) :
    (A.data.get? i = some 1 → A.mask.get? i = some false →
      ∃ r, arith_method A .na .pow = .ok (.one r)
        ∧ r.mask.get? i = some false ∧ r.data.get? i = some 1)
  ∧ (A.data.get? i = some 0 → A.mask.get? i = some false →
      ∃ r, arith_method A .na .rpow = .ok (.one r)
        ∧ r.mask.get? i = some false ∧ r.data.get? i = some 1) := by
  constructor
  · intro hd hm
    have hi : i < A.data.length := lt_length_of_get? hd
    refine ⟨_, arith_na_pow_closed A hwf, ?_, ?_⟩
    · have hc : (List.zipWith isOneValid A.data A.mask).get? i = some true := by
        simpa [isOneValid] using get?_zipWith_some isOneValid hd hm
      have hrep : (List.replicate A.mask.length true).get? i = some true :=
        get?_replicate_some true (hwf ▸ hi)
      simpa [whereF] using get?_zipWith_some whereF hc hrep
    · exact get?_replicate_some 1 hi
  · intro hd hm
    have hi : i < A.data.length := lt_length_of_get? hd
    refine ⟨_, arith_na_rpow_closed A hwf, ?_, ?_⟩
    · have hc : (List.zipWith isZeroValid A.data A.mask).get? i = some true := by
        simpa [isZeroValid] using get?_zipWith_some isZeroValid hd hm
      have hrep : (List.replicate A.mask.length true).get? i = some true :=
        get?_replicate_some true (hwf ▸ hi)
      simpa [whereF] using get?_zipWith_some whereF hc hrep
    · exact get?_replicate_some 1 hi

/-- Witness for C10 at concrete arrays (`[1, 7] ** NA` and `NA ** [0, 7]`). -/
theorem C10_witness :
    (∃ r, arith_method ⟨[1, 7], [false, true], .i⟩ .na .pow = .ok (.one r)
      ∧ r.mask.get? 0 = some false ∧ r.data.get? 0 = some 1)
  ∧ (∃ r, arith_method ⟨[0, 7], [false, true], .i⟩ .na .rpow = .ok (.one r)
      ∧ r.mask.get? 0 = some false ∧ r.data.get? 0 = some 1) :=
  ⟨(C10_thm ⟨[1, 7], [false, true], .i⟩ 0 rfl).1 rfl rfl,
   (C10_thm ⟨[0, 7], [false, true], .i⟩ 0 rfl).2 rfl rfl⟩

/-- Claim C2: for the `pow` operator, every slot holding an unmasked one in
`self.data` has a not-missing result mask for any operand — another masked array
(even one missing at that slot), a native list, a scalar, or the missing-value
singleton — and every slot where the operand is an unmasked zero (or the operand
is the scalar zero) has a not-missing result mask for any array. -/
theorem C2_thm (A : NumericArray) (B : Operand) (i : Nat)
    (hwf : A.data.length = A.mask.length)
    (hfit : operandFits B A.data.length) :
    (A.data.get? i = some 1 → A.mask.get? i = some false →
      resultMaskAt (arith_method A B .pow) i = some false)
  ∧ (operandZeroAt B i → i < A.data.length →
      resultMaskAt (arith_method A B .pow) i = some false) := by
  cases B with
  | marr od om k =>
    obtain ⟨h1, h2⟩ := hfit
    constructor
    · intro hd hm
      have hi : i < A.data.length := lt_length_of_get? hd
      have hio : i < od.length := by omega
      have hiw : i < om.length := by omega
      obtain ⟨ov, hov⟩ := get?_some_of_lt hio
      obtain ⟨wv, hwv⟩ := get?_some_of_lt hiw
      have hbase := get?_zipWith_some Bool.or hm hwv
      have hc1 := get?_zipWith_some isOneValid hd hm
      have hmid := get?_zipWith_some whereF hc1 hbase
      have hc2 := get?_zipWith_some isZeroValid hov hwv
      have hfin := get?_zipWith_some whereF hc2 hmid
      rw [arith_pow_marr_closed A od om k hwf h1 h2]
      simp only [resultMaskAt]
      rw [hfin]
      simp [isOneValid, whereF]
    · rintro ⟨hz0, hzm⟩ hi
      have him : i < A.mask.length := by omega
      obtain ⟨dv, hdv⟩ := get?_some_of_lt hi
      obtain ⟨mv, hmv⟩ := get?_some_of_lt him
      have hbase := get?_zipWith_some Bool.or hmv hzm
      have hc1 := get?_zipWith_some isOneValid hdv hmv
      have hmid := get?_zipWith_some whereF hc1 hbase
      have hc2 := get?_zipWith_some isZeroValid hz0 hzm
      have hfin := get?_zipWith_some whereF hc2 hmid
      rw [arith_pow_marr_closed A od om k hwf h1 h2]
      simp only [resultMaskAt]
      rw [hfin]
      simp [isZeroValid, whereF]
  | nlist od k =>
    have h1 : od.length = A.data.length := hfit
    constructor
    · intro hd hm
      have hi : i < A.data.length := lt_length_of_get? hd
      have hio : i < od.length := by omega
      obtain ⟨ov, hov⟩ := get?_some_of_lt hio
      have hc1 := get?_zipWith_some isOneValid hd hm
      have hmid := get?_zipWith_some whereF hc1 hm
      have hc2 := get?_map_some (fun y => decide (y = 0)) hov
      have hfin := get?_zipWith_some whereF hc2 hmid
      rw [arith_pow_nlist_closed A od k hwf h1]
      simp only [resultMaskAt]
      rw [hfin]
      simp [isOneValid, whereF]
    · intro hz hi
      have hz0 : od.get? i = some 0 := hz
      have him : i < A.mask.length := by omega
      obtain ⟨dv, hdv⟩ := get?_some_of_lt hi
      obtain ⟨mv, hmv⟩ := get?_some_of_lt him
      have hc1 := get?_zipWith_some isOneValid hdv hmv
      have hmid := get?_zipWith_some whereF hc1 hmv
      have hc2 := get?_map_some (fun y => decide (y = 0)) hz0
      have hfin := get?_zipWith_some whereF hc2 hmid
      rw [arith_pow_nlist_closed A od k hwf h1]
      simp only [resultMaskAt]
      rw [hfin]
      simp [whereF]
  | scalar x =>
    constructor
    · intro hd hm
      have hi : i < A.data.length := lt_length_of_get? hd
      by_cases hx : x = 0
      · subst hx
        rw [arith_pow_scalar_zero_closed A hwf]
        simp only [resultMaskAt]
        exact get?_replicate_some false (hwf ▸ hi)
      · rw [arith_pow_scalar_closed A x hx hwf]
        simp only [resultMaskAt]
        have hc1 := get?_zipWith_some isOneValid hd hm
        have hfin := get?_zipWith_some whereF hc1 hm
        rw [hfin]
        simp [isOneValid, whereF]
    · intro hz hi
      have hx : x = 0 := hz
      subst hx
      rw [arith_pow_scalar_zero_closed A hwf]
      simp only [resultMaskAt]
      exact get?_replicate_some false (hwf ▸ hi)
  | na =>
    constructor
    · intro hd hm
      have hi : i < A.data.length := lt_length_of_get? hd
      rw [arith_na_pow_closed A hwf]
      simp only [resultMaskAt]
      have hc1 := get?_zipWith_some isOneValid hd hm
      have hrep : (List.replicate A.mask.length true).get? i = some true :=
        get?_replicate_some true (hwf ▸ hi)
      have hfin := get?_zipWith_some whereF hc1 hrep
      rw [hfin]
      simp [isOneValid, whereF]
    · intro hz
      exact hz.elim

/-- Witness for C2: the base-one and exponent-zero identities at concrete inputs,
with the operand missing at the base-one slot. -/
theorem C2_witness :
    resultMaskAt (arith_method ⟨[1, 5], [false, false], .i⟩
      (.marr [9, 0] [true, false] .i) .pow) 0 = some false
  ∧ resultMaskAt (arith_method ⟨[7, 5], [false, true], .i⟩
      (.marr [9, 0] [true, false] .i) .pow) 1 = some false
  ∧ resultMaskAt (arith_method ⟨[3, 4], [false, false], .i⟩ (.scalar 0) .pow) 1
      = some false
  ∧ resultMaskAt (arith_method ⟨[1, 5], [false, true], .i⟩ .na .pow) 0
      = some false :=
  ⟨(C2_thm ⟨[1, 5], [false, false], .i⟩ (.marr [9, 0] [true, false] .i) 0 rfl
      ⟨rfl, rfl⟩).1 rfl rfl,
   (C2_thm ⟨[7, 5], [false, true], .i⟩ (.marr [9, 0] [true, false] .i) 1 rfl
      ⟨rfl, rfl⟩).2 ⟨rfl, rfl⟩ (by decide),
   (C2_thm ⟨[3, 4], [false, false], .i⟩ (.scalar 0) 1 rfl trivial).2 rfl
      (by decide),
   (C2_thm ⟨[1, 5], [false, true], .i⟩ .na 0 rfl trivial).1 rfl rfl⟩

/-- Claim C3: for the `rpow` operator (`other ** self`), every slot where the
other operand is an unmasked one (or the scalar one) has a not-missing result
mask, and every slot holding an unmasked zero in `self.data` has a not-missing
result mask, for any operand kind. -/
theorem C3_thm (A : NumericArray) (B : Operand) (i : Nat)
    (hwf : A.data.length = A.mask.length)
    (hfit : operandFits B A.data.length) :
    (operandOneAt B i → i < A.data.length →
      resultMaskAt (arith_method A B .rpow) i = some false)
  ∧ (A.data.get? i = some 0 → A.mask.get? i = some false →
      resultMaskAt (arith_method A B .rpow) i = some false) := by
  cases B with
  | marr od om k =>
    obtain ⟨h1, h2⟩ := hfit
    constructor
    · rintro ⟨ho1, hom⟩ hi
      have him : i < A.mask.length := by omega
      obtain ⟨dv, hdv⟩ := get?_some_of_lt hi
      obtain ⟨mv, hmv⟩ := get?_some_of_lt him
      have hbase := get?_zipWith_some Bool.or hmv hom
      have hc1 := get?_zipWith_some isOneValid ho1 hom
      have hmid := get?_zipWith_some whereF hc1 hbase
      have hcz := get?_zipWith_some isZeroValid hdv hmv
      have hfin := get?_zipWith_some whereF hcz hmid
      rw [arith_rpow_marr_closed A od om k hwf h1 h2]
      simp only [resultMaskAt]
      rw [hfin]
      simp [isOneValid, whereF]
    · intro hd hm
      have hi : i < A.data.length := lt_length_of_get? hd
      have hio : i < od.length := by omega
      have hiw : i < om.length := by omega
      obtain ⟨ov, hov⟩ := get?_some_of_lt hio
      obtain ⟨wv, hwv⟩ := get?_some_of_lt hiw
      have hbase := get?_zipWith_some Bool.or hm hwv
      have hc1 := get?_zipWith_some isOneValid hov hwv
      have hmid := get?_zipWith_some whereF hc1 hbase
      have hcz := get?_zipWith_some isZeroValid hd hm
      have hfin := get?_zipWith_some whereF hcz hmid
      rw [arith_rpow_marr_closed A od om k hwf h1 h2]
      simp only [resultMaskAt]
      rw [hfin]
      simp [isZeroValid, whereF]
  | nlist od k =>
    have h1 : od.length = A.data.length := hfit
    constructor
    · intro ho1 hi
      have ho : od.get? i = some 1 := ho1
      have him : i < A.mask.length := by omega
      obtain ⟨dv, hdv⟩ := get?_some_of_lt hi
      obtain ⟨mv, hmv⟩ := get?_some_of_lt him
      have hc1 := get?_map_some (fun y => decide (y = 1)) ho
      have hmid := get?_zipWith_some whereF hc1 hmv
      have hcz := get?_zipWith_some isZeroValid hdv hmv
      have hfin := get?_zipWith_some whereF hcz hmid
      rw [arith_rpow_nlist_closed A od k hwf h1]
      simp only [resultMaskAt]
      rw [hfin]
      simp [whereF]
    · intro hd hm
      have hi : i < A.data.length := lt_length_of_get? hd
      have hio : i < od.length := by omega
      obtain ⟨ov, hov⟩ := get?_some_of_lt hio
      have hc1 := get?_map_some (fun y => decide (y = 1)) hov
      have hmid := get?_zipWith_some whereF hc1 hm
      have hcz := get?_zipWith_some isZeroValid hd hm
      have hfin := get?_zipWith_some whereF hcz hmid
      rw [arith_rpow_nlist_closed A od k hwf h1]
      simp only [resultMaskAt]
      rw [hfin]
      simp [isZeroValid, whereF]
  | scalar x =>
    constructor
    · intro hx1 hi
      have hx : x = 1 := hx1
      subst hx
      have him : i < A.mask.length := by omega
      obtain ⟨dv, hdv⟩ := get?_some_of_lt hi
      obtain ⟨mv, hmv⟩ := get?_some_of_lt him
      have hrep : (List.replicate A.mask.length false).get? i = some false :=
        get?_replicate_some false him
      have hcz := get?_zipWith_some isZeroValid hdv hmv
      have hfin := get?_zipWith_some whereF hcz hrep
      rw [arith_rpow_scalar_one_closed A hwf]
      simp only [resultMaskAt]
      rw [hfin]
      simp [whereF]
    · intro hd hm
      have hi : i < A.data.length := lt_length_of_get? hd
      have him : i < A.mask.length := by omega
      have hcz := get?_zipWith_some isZeroValid hd hm
      by_cases hx : x = 1
      · subst hx
        have hrep : (List.replicate A.mask.length false).get? i = some false :=
          get?_replicate_some false him
        have hfin := get?_zipWith_some whereF hcz hrep
        rw [arith_rpow_scalar_one_closed A hwf]
        simp only [resultMaskAt]
        rw [hfin]
        simp [isZeroValid, whereF]
      · have hfin := get?_zipWith_some whereF hcz hm
        rw [arith_rpow_scalar_closed A x hx hwf]
        simp only [resultMaskAt]
        rw [hfin]
        simp [isZeroValid, whereF]
  | na =>
    constructor
    · intro hz
      exact hz.elim
    · intro hd hm
      have hi : i < A.data.length := lt_length_of_get? hd
      rw [arith_na_rpow_closed A hwf]
      simp only [resultMaskAt]
      have hcz := get?_zipWith_some isZeroValid hd hm
      have hrep : (List.replicate A.mask.length true).get? i = some true :=
        get?_replicate_some true (hwf ▸ hi)
      have hfin := get?_zipWith_some whereF hcz hrep
      rw [hfin]
      simp [isZeroValid, whereF]

/-- Witness for C3: the base-one and exponent-zero identities of the reversed
power at concrete inputs. -/
theorem C3_witness :
    resultMaskAt (arith_method ⟨[9, 5], [true, false], .i⟩
      (.marr [1, 0] [false, false] .i) .rpow) 0 = some false
  ∧ resultMaskAt (arith_method ⟨[0, 5], [false, true], .i⟩
      (.marr [9, 3] [true, false] .i) .rpow) 0 = some false
  ∧ resultMaskAt (arith_method ⟨[9, 4], [true, false], .i⟩ (.scalar 1) .rpow) 0
      = some false :=
  ⟨(C3_thm ⟨[9, 5], [true, false], .i⟩ (.marr [1, 0] [false, false] .i) 0 rfl
      ⟨rfl, rfl⟩).1 ⟨rfl, rfl⟩ (by decide),
   (C3_thm ⟨[0, 5], [false, true], .i⟩ (.marr [9, 3] [true, false] .i) 0 rfl
      ⟨rfl, rfl⟩).2 rfl rfl,
   (C3_thm ⟨[9, 4], [true, false], .i⟩ (.scalar 1) 0 rfl trivial).1 rfl
      (by decide)⟩

/-- Claim C6: `divmod(A, B)` returns a pair `(Q, R)` built from the same combined
mask `A.mask OR B.mask` (`divmod` has no identity override), assembled under the
operator names `floordiv` and `mod` with that one mask, and `Q` and `R` equal the
results of independent `floordiv` and `mod` calls elementwise. -/
theorem C6_thm (A : NumericArray) (od : List Int) (om : List Bool) (k : Kind)
    (h1 : od.length = A.data.length) (h2 : om.length = A.mask.length) :
    ∃ Q R,
      arith_method A (.marr od om k) .divmod = .ok (.two Q R)
      ∧ Q.mask = List.zipWith Bool.or A.mask om
      ∧ R.mask = Q.mask
      ∧ arith_method A (.marr od om k) .floordiv = .ok (.one Q)
      ∧ arith_method A (.marr od om k) .mod = .ok (.one R) := by
  refine ⟨_, _, arith_divmod_marr_closed A od om k h1 h2, rfl, rfl, ?_, ?_⟩
  · rw [arith_plain_marr_closed A od om k .floordiv
      (by decide) (by decide) (by decide) h1 h2]
    simp [promoteKind, truedivName]
  · rw [arith_plain_marr_closed A od om k .mod
      (by decide) (by decide) (by decide) h1 h2]
    simp [promoteKind, truedivName]

/-- Witness for C6 at concrete two-slot arrays (with a masked slot and a zero
divisor on the masked slot). -/
theorem C6_witness :
    ∃ Q R,
      arith_method ⟨[7, 5], [false, false], .i⟩
          (.marr [2, 0] [false, true] .i) .divmod = .ok (.two Q R)
      ∧ Q.mask = [false, true]
      ∧ R.mask = Q.mask
      ∧ arith_method ⟨[7, 5], [false, false], .i⟩
          (.marr [2, 0] [false, true] .i) .floordiv = .ok (.one Q)
      ∧ arith_method ⟨[7, 5], [false, false], .i⟩
          (.marr [2, 0] [false, true] .i) .mod = .ok (.one R) := by
  obtain ⟨Q, R, e1, e2, e3, e4, e5⟩ :=
    C6_thm ⟨[7, 5], [false, false], .i⟩ [2, 0] [false, true] .i rfl rfl
  exact ⟨Q, R, e1, by rw [e2]; decide, e3, e4, e5⟩

theorem astype_flt_eq (a : NumericArray) :
    astype a .flt = .ok (List.zipWith
      (fun x m => if m then NpScalar.nan else NpScalar.ofInt x) a.data a.mask) := by
  by_cases h : a.kind = .f <;>
    simp [astype, to_numpy, na_value_for, astype_nansafe, h]

theorem astype_dt64_eq (a : NumericArray) (h : a.kind ≠ .f) :
    astype a .dt64 = .ok (List.zipWith
      (fun x m => if m then NpScalar.natS else NpScalar.ofInt x) a.data a.mask) := by
  simp [astype, to_numpy, na_value_for, h]

/-- Claim C7: `astype` to a native dtype picks the missing-slot fill value from
the target family — floating targets fill with NaN (a missing slot reads as NaN
in the output), datetime targets fill with the NaT sentinel, every other target
has no fill value — so casting an array with at least one missing slot to a
target without a fill value fails with the unsafe-cast error. -/
theorem C7_thm (a : NumericArray) (hwf : a.data.length = a.mask.length) :
    (∀ i, a.mask.get? i = some true →
      ∃ out, astype a .flt = .ok out ∧ out.get? i = some .nan)
  ∧ (a.kind ≠ .f → ∀ i, a.mask.get? i = some true →
      ∃ out, astype a .dt64 = .ok out ∧ out.get? i = some .natS)
  ∧ (∀ dt, dt ≠ NpDtype.flt → dt ≠ NpDtype.dt64 → a.mask.any id = true →
      astype a dt = .error .noFillError)
  ∧ na_value_for .flt = some .nan
  ∧ na_value_for .dt64 = some .natS
  ∧ (∀ dt, dt ≠ NpDtype.flt → dt ≠ NpDtype.dt64 → na_value_for dt = none) := by
  refine ⟨?_, ?_, ?_, rfl, rfl, ?_⟩
  · intro i hm
    have him : i < a.mask.length := lt_length_of_get? hm
    have hid : i < a.data.length := by omega
    obtain ⟨x, hx⟩ := get?_some_of_lt hid
    refine ⟨_, astype_flt_eq a, ?_⟩
    simpa using
      get?_zipWith_some (fun x m => if m then NpScalar.nan else NpScalar.ofInt x)
        hx hm
  · intro hk i hm
    have him : i < a.mask.length := lt_length_of_get? hm
    have hid : i < a.data.length := by omega
    obtain ⟨x, hx⟩ := get?_some_of_lt hid
    refine ⟨_, astype_dt64_eq a hk, ?_⟩
    simpa using
      get?_zipWith_some (fun x m => if m then NpScalar.natS else NpScalar.ofInt x)
        hx hm
  · intro dt hf hd hm
    have hna : na_value_for dt = none := by simp [na_value_for, hf, hd]
    simp [astype, to_numpy, hna, hm]
  · intro dt hf hd
    simp [na_value_for, hf, hd]

/-- Witness for C7 at the concrete array `[5, missing]` of integer kind. -/
theorem C7_witness :
    (∃ out, astype ⟨[5, 7], [false, true], .i⟩ .flt = .ok out
      ∧ out.get? 1 = some .nan)
  ∧ (∃ out, astype ⟨[5, 7], [false, true], .i⟩ .dt64 = .ok out
      ∧ out.get? 1 = some .natS)
  ∧ astype ⟨[5, 7], [false, true], .i⟩ .intg = .error .noFillError :=
  ⟨(C7_thm ⟨[5, 7], [false, true], .i⟩ rfl).1 1 rfl,
   (C7_thm ⟨[5, 7], [false, true], .i⟩ rfl).2.1 (by decide) 1 rfl,
   (C7_thm ⟨[5, 7], [false, true], .i⟩ rfl).2.2.1 .intg (by decide) (by decide)
     rfl⟩

end NumericSpec

